import Mathlib

set_option autoImplicit false

/-!
Shallow embedding of the WarheadCore configuration loader
(`src/common/Config/Config.cpp`): line parser, file loader, option table
merge, and the typed accessors.  Strings are modelled as `List Char`;
the process-wide `_configOptions` unordered map is modelled as an
association list with unique keys (lookup returns the entry for a key;
iteration order stands in for the map's unspecified order).
-/

/-- C++ `std::string`, modelled as a list of characters. -/
abbrev Str := List Char

/-- Converts a Lean string literal to the `Str` model. -/
def str (s : String) : Str := s.data

/-- Modelled from the spec: `Warhead::String::Trim` (declared in `Util.h`,
not under `src/`) removes leading and trailing whitespace from a line;
whitespace per `std::isspace` in the default locale. -/
def isSpaceChar (c : Char) : Bool :=
  c == ' ' || c == '\t' || c == '\n' || c == '\r' ||
    c == Char.ofNat 11 || c == Char.ofNat 12

/-- Modelled from the spec: trim leading/trailing whitespace. -/
def trimStr (s : Str) : Str :=
  ((s.dropWhile isSpaceChar).reverse.dropWhile isSpaceChar).reverse

/-- `std::string::find(c)`: index of the first occurrence of `c`, if any.
Also models `find_first_of` called with a single relevant character. -/
def findIdx : Str → Char → Option Nat
  | [], _ => none
  | x :: xs, c => if x = c then some 0 else (findIdx xs c).map (· + 1)

/-- The `ConfigException` payloads thrown by `ParseFile`. -/
inductive ConfigError : Type
  | fileOpen (file : Str)
  | lineRead (file : Str) (lineNumber : Nat)
  | emptyFile (file : Str)
  deriving DecidableEq

/-- The diagnostics emitted through `LOG_ERROR` / `PrintError`, keyed by
which call site fired and its identifying arguments. -/
inductive LogMsg : Type
  | malformedLine (file : Str) (lineNumber : Nat)
  | duplicateKey (file : Str) (key : Str)
  | keyExists (name : Str) (existing : Str)
  | parseFail (file : Str) (err : ConfigError)
  | missingName (name : Str)
  | badValue (name : Str)
  deriving DecidableEq

/-- The `_configOptions` table (and the file-local map): name/value pairs. -/
abbrev Table := List (Str × Str)

/-- `unordered_map::find`: the value stored for a key, if present. -/
def lookupKV : Table → Str → Option Str
  | [], _ => none
  | (k', v) :: rest, k => if k' = k then some v else lookupKV rest k

/-- `AddKey(optionName, optionKey, replace)`: find; if present and not
replacing, log "is exist" and return; otherwise erase any old entry and
emplace the new one.  Returns the new table and the diagnostics emitted. -/
def AddKey (t : Table) (name val : Str) (replace : Bool) : Table × List LogMsg :=
  match lookupKV t name with
  | some existing =>
    if replace then
      ((t.filter fun p => p.1 ≠ name) ++ [(name, val)], [])
    else
      (t, [LogMsg.keyExists name existing])
  | none => (t ++ [(name, val)], [])

/-- One line delivered by `std::getline`: either its text, or a stream
read error that is not plain end-of-file. -/
inductive LineRead : Type
  | ok (s : Str)
  | readErr
  deriving DecidableEq

/-- A file as seen by `std::ifstream`: unopenable, or a sequence of lines. -/
inductive FileInput : Type
  | cantOpen
  | content (lines : List LineRead)

/-- Outcome of the per-line syntax handling inside the `ParseFile` loop. -/
inductive LineResult : Type
  | skip
  | malformed
  | entry (key value : Str)
  deriving DecidableEq

/-- The per-line processing of `ParseFile`: trim; skip empty lines and
lines starting with `#` or `[`; truncate at the first `#`; find the first
`=` (log-and-skip when absent, or when at position `line.length()` — the
source compares the found index against the full length); split, trim key
and value, and erase every `"` from the value. -/
def splitLine (raw : Str) : LineResult :=
  let line := trimStr raw
  match line with
  | [] => LineResult.skip
  | c :: _ =>
    if c = '#' ∨ c = '[' then LineResult.skip
    else
      let line' := match findIdx line '#' with
        | some i => line.take i
        | none => line
      match findIdx line' '=' with
      | none => LineResult.malformed
      | some p =>
        if p = line'.length then LineResult.malformed
        else
          let entry := trimStr (line'.take p)
          let value := (trimStr (line'.drop (p + 1))).filter fun ch => ch ≠ '"'
          LineResult.entry entry value

/-- The loop state of `ParseFile`: the valid-entry counter, the file-local
map `fileConfigs` (in emplace order), and the diagnostics so far. -/
structure ParseState : Type where
  count : Nat
  fileConfigs : List (Str × Str)
  logs : List LogMsg
  deriving DecidableEq

/-- Initial `ParseFile` loop state: `count = 0`, empty `fileConfigs`. -/
def initState : ParseState := ⟨0, [], []⟩

/-- One iteration of the `ParseFile` loop body on a successfully read
line: syntax handling via `splitLine`, then the `IsDuplicateOption`
check (log and skip a repeated key) and the `emplace`/`count++`. -/
def processLine (file : Str) (lineNumber : Nat) (raw : Str) (st : ParseState) :
    ParseState :=
  match splitLine raw with
  | LineResult.skip => st
  | LineResult.malformed =>
    { st with logs := st.logs ++ [LogMsg.malformedLine file lineNumber] }
  | LineResult.entry k v =>
    match lookupKV st.fileConfigs k with
    | some _ => { st with logs := st.logs ++ [LogMsg.duplicateKey file k] }
    | none =>
      { st with count := st.count + 1, fileConfigs := st.fileConfigs ++ [(k, v)] }

/-- The `while (in.good())` loop of `ParseFile`, over the remaining lines;
`n` counts the lines already consumed, so the current line number is
`n + 1` (the source increments `lineNumber` at the top of the loop).
A line read error that is not end-of-file throws `ConfigException`. -/
def runLines (file : Str) : List LineRead → Nat → ParseState →
    Except ConfigError ParseState
  | [], _, st => Except.ok st
  | LineRead.readErr :: _, n, _ => Except.error (ConfigError.lineRead file (n + 1))
  | LineRead.ok raw :: rest, n, st =>
    runLines file rest (n + 1) (processLine file (n + 1) raw st)

/-- `ParseFile(file)`: throw on open failure; run the line loop; throw
`Empty file` when no valid entry was counted; otherwise return the final
state (whose `fileConfigs` the caller merges via `AddKey`). -/
def ParseFile (file : Str) (input : FileInput) : Except ConfigError ParseState :=
  match input with
  | FileInput.cantOpen => Except.error (ConfigError.fileOpen file)
  | FileInput.content lines =>
    match runLines file lines 0 initState with
    | Except.error e => Except.error e
    | Except.ok st =>
      if st.count = 0 then Except.error (ConfigError.emptyFile file)
      else Except.ok st

/-- The `for (auto const& [entry, key] : fileConfigs) AddKey(entry, key);`
merge loop: every file-local entry inserted with `replace = true`. -/
def mergeAll (t : Table) (fc : List (Str × Str)) : Table :=
  fc.foldl (fun acc p => (AddKey acc p.1 p.2 true).1) t

/-- `LoadFile(file)`: run `ParseFile` under `try`; on an exception log it
and report `false` (table untouched); on success merge the file-local map
into the live table and report `true`. -/
def LoadFile (file : Str) (input : FileInput) (t : Table) :
    Bool × Table × List LogMsg :=
  match ParseFile file input with
  | Except.error e => (false, t, [LogMsg.parseFail file e])
  | Except.ok st => (true, mergeAll t st.fileConfigs, st.logs)

/-- `ConfigMgr::LoadInitial`: clear the whole table, then `LoadFile`. -/
def LoadInitial (file : Str) (input : FileInput) (_t : Table) :
    Bool × Table × List LogMsg :=
  LoadFile file input []

/-- `ConfigMgr::LoadAdditionalFile`: `LoadFile` without clearing. -/
def LoadAdditionalFile (file : Str) (input : FileInput) (t : Table) :
    Bool × Table × List LogMsg :=
  LoadFile file input t

/-- `ConfigMgr::LoadAppConfigs`: load `_filename + ".dist"` as the initial
load and fail if it fails; the second step (additionally loading the
un-suffixed `_filename`) is commented out in the source. -/
def LoadAppConfigs (filename : Str) (env : Str → FileInput) (t : Table) :
    Bool × Table × List LogMsg :=
  let r := LoadInitial (filename ++ str ".dist") (env (filename ++ str ".dist")) t
  if r.1 = false then (false, r.2.1, r.2.2) else (true, r.2.1, r.2.2)

/-- `ConfigMgr::GetValueDefault<T>`: look the name up; if missing, log
(when `showLogs`) and return the default; otherwise convert the stored
string with `Warhead::StringTo<T>` (abstracted as `conv`); on conversion
failure log (when `showLogs`) and return the default. -/
def GetValueDefault {α : Type} (conv : Str → Option α) (t : Table)
    (name : Str) (defVal : α) (showLogs : Bool) : α × List LogMsg :=
  match lookupKV t name with
  | none => (defVal, if showLogs then [LogMsg.missingName name] else [])
  | some s =>
    match conv s with
    | none => (defVal, if showLogs then [LogMsg.badValue name] else [])
    | some v => (v, [])

/-- `ConfigMgr::GetValueDefault<std::string>`: the string specialization
returns the stored value verbatim, no conversion step. -/
def GetValueDefaultString (t : Table) (name defVal : Str) (showLogs : Bool) :
    Str × List LogMsg :=
  match lookupKV t name with
  | none => (defVal, if showLogs then [LogMsg.missingName name] else [])
  | some s => (s, [])

/-- `ConfigMgr::GetOption<T>`: delegates to `GetValueDefault<T>`. -/
def GetOption {α : Type} (conv : Str → Option α) (t : Table)
    (name : Str) (defVal : α) (showLogs : Bool) : α × List LogMsg :=
  GetValueDefault conv t name defVal showLogs

/-- Modelled from the spec: `Warhead::StringTo<bool>` (StringConvert.h,
not under `src/`) converts text to boolean, accepting the canonical
`true`/`false`/`1`/`0` forms and failing on anything else. -/
def stringToBool (s : Str) : Option Bool :=
  if s = str "1" ∨ s = str "true" then some true
  else if s = str "0" ∨ s = str "false" then some false
  else none

/-- `ConfigMgr::GetOption<bool>`: fetch the raw text through the string
`GetValueDefault` with default `"1"`/`"0"`, then convert with
`Warhead::StringTo<bool>`; on conversion failure log (when `showLogs`)
and return the default. -/
def GetOptionBool (t : Table) (name : Str) (defVal : Bool) (showLogs : Bool) :
    Bool × List LogMsg :=
  let r := GetValueDefaultString t name (if defVal then str "1" else str "0") showLogs
  match stringToBool r.1 with
  | none => (defVal, r.2 ++ if showLogs then [LogMsg.badValue name] else [])
  | some b => (b, r.2)

/-- `ConfigMgr::GetKeysByString(name)`: collect every option name whose
first `name.length()` characters compare equal to `name`
(`optionName.compare(0, name.length(), name) == 0`). -/
def GetKeysByString (t : Table) (name : Str) : List Str :=
  (t.filter fun p => p.1.take name.length = name).map Prod.fst

/-- Loop invariant of `ParseFile`: `count` equals the number of file-local
entries, and the file-local keys are pairwise distinct (the map rejects
duplicates before `emplace`). -/
def StInv (st : ParseState) : Prop :=
  st.count = st.fileConfigs.length ∧ (st.fileConfigs.map Prod.fst).Nodup

/-! ### Association-list lemmas for the table and `AddKey` -/

theorem lookupKV_append_of_none {t1 : Table} (t2 : Table) {k : Str}
    (h : lookupKV t1 k = none) : lookupKV (t1 ++ t2) k = lookupKV t2 k := by
  induction t1 with
  | nil => rfl
  | cons p rest ih =>
    obtain ⟨k', v⟩ := p
    simp only [lookupKV, List.cons_append] at h ⊢
    by_cases hk : k' = k
    · simp [hk] at h
    · rw [if_neg hk] at h ⊢
      exact ih h

theorem lookupKV_append_of_some {t1 : Table} (t2 : Table) {k v : Str}
    (h : lookupKV t1 k = some v) : lookupKV (t1 ++ t2) k = some v := by
  induction t1 with
  | nil => simp [lookupKV] at h
  | cons p rest ih =>
    obtain ⟨k', v'⟩ := p
    simp only [lookupKV, List.cons_append] at h ⊢
    by_cases hk : k' = k
    · rwa [if_pos hk] at h ⊢
    · rw [if_neg hk] at h ⊢
      exact ih h

theorem lookupKV_eq_none_of_forall {t : Table} {k : Str}
    (h : ∀ p ∈ t, p.1 ≠ k) : lookupKV t k = none := by
  induction t with
  | nil => rfl
  | cons p rest ih =>
    obtain ⟨k', v⟩ := p
    simp only [lookupKV]
    rw [if_neg (h (k', v) (List.mem_cons_self _ _))]
    exact ih fun q hq => h q (List.mem_cons_of_mem _ hq)

theorem lookupKV_filter_self (t : Table) (k : Str) :
    lookupKV (t.filter fun p => p.1 ≠ k) k = none := by
  apply lookupKV_eq_none_of_forall
  intro p hp
  have := List.of_mem_filter hp
  simpa using this

theorem lookupKV_filter_ne {k' k : Str} (t : Table) (h : k' ≠ k) :
    lookupKV (t.filter fun p => p.1 ≠ k) k' = lookupKV t k' := by
  induction t with
  | nil => rfl
  | cons p rest ih =>
    obtain ⟨k0, v0⟩ := p
    simp only [List.filter_cons]
    by_cases hk0 : k0 = k
    · rw [if_neg (by simp [hk0])]
      rw [ih]
      simp only [lookupKV]
      rw [if_neg (by rw [hk0]; exact fun hh => h hh.symm)]
    · rw [if_pos (by simp [hk0])]
      simp only [lookupKV]
      by_cases he : k0 = k'
      · rw [if_pos he, if_pos he]
      · rw [if_neg he, if_neg he]
        exact ih

theorem addKey_lookup_self (t : Table) (k v : Str) :
    lookupKV (AddKey t k v true).1 k = some v := by
  cases hl : lookupKV t k with
  | none =>
    simp only [AddKey, hl]
    rw [lookupKV_append_of_none [(k, v)] hl]
    simp [lookupKV]
  | some v0 =>
    simp only [AddKey, hl, if_true]
    rw [lookupKV_append_of_none [(k, v)] (lookupKV_filter_self t k)]
    simp [lookupKV]

theorem addKey_lookup_ne {k' k : Str} (t : Table) (v : Str) (h : k' ≠ k) :
    lookupKV (AddKey t k v true).1 k' = lookupKV t k' := by
  have hkk : k ≠ k' := fun hh => h hh.symm
  cases hl : lookupKV t k with
  | none =>
    simp only [AddKey, hl]
    cases hl' : lookupKV t k' with
    | none =>
      rw [lookupKV_append_of_none [(k, v)] hl']
      simp [lookupKV, hkk]
    | some w => exact lookupKV_append_of_some [(k, v)] hl'
  | some v0 =>
    simp only [AddKey, hl, if_true]
    cases hl' : lookupKV t k' with
    | none =>
      rw [lookupKV_append_of_none [(k, v)] ((lookupKV_filter_ne t h).trans hl')]
      simp [lookupKV, hkk]
    | some w =>
      exact lookupKV_append_of_some [(k, v)] ((lookupKV_filter_ne t h).trans hl')

theorem mergeAll_lookup_of_absent {fc : List (Str × Str)} {k : Str}
    (t : Table) (h : ∀ p ∈ fc, p.1 ≠ k) :
    lookupKV (mergeAll t fc) k = lookupKV t k := by
  induction fc generalizing t with
  | nil => rfl
  | cons p rest ih =>
    obtain ⟨k0, v0⟩ := p
    show lookupKV (mergeAll (AddKey t k0 v0 true).1 rest) k = _
    rw [ih _ fun q hq => h q (List.mem_cons_of_mem _ hq)]
    exact addKey_lookup_ne t v0 fun hh =>
      h (k0, v0) (List.mem_cons_self _ _) hh.symm |>.elim

theorem mergeAll_lookup_of_some {fc : List (Str × Str)} {k v : Str}
    (t : Table) (hnd : (fc.map Prod.fst).Nodup)
    (h : lookupKV fc k = some v) : lookupKV (mergeAll t fc) k = some v := by
  induction fc generalizing t with
  | nil => simp [lookupKV] at h
  | cons p rest ih =>
    obtain ⟨k0, v0⟩ := p
    simp only [List.map_cons, List.nodup_cons] at hnd
    simp only [lookupKV] at h
    have hm : mergeAll t ((k0, v0) :: rest) = mergeAll (AddKey t k0 v0 true).1 rest := rfl
    rw [hm]
    by_cases hk : k0 = k
    · rw [if_pos hk] at h
      injection h with hv
      have habs : ∀ q ∈ rest, q.1 ≠ k := by
        intro q hq hq1
        rw [← hk] at hq1
        exact hnd.1 (hq1 ▸ List.mem_map_of_mem Prod.fst hq)
      rw [mergeAll_lookup_of_absent _ habs]
      rw [← hk, ← hv]
      exact addKey_lookup_self t k0 v0
    · rw [if_neg hk] at h
      exact ih _ hnd.2 h

theorem take_length_eq_iff {name k : Str} :
    k.take name.length = name ↔ name <+: k := by
  constructor
  · intro h
    have hsplit := List.take_append_drop name.length k
    rw [h] at hsplit
    exact ⟨k.drop name.length, hsplit⟩
  · rintro ⟨t2, rfl⟩
    exact List.take_left name t2

theorem not_mem_keys_of_lookupKV_none {t : Table} {k : Str}
    (h : lookupKV t k = none) : k ∉ t.map Prod.fst := by
  induction t with
  | nil => simp
  | cons p rest ih =>
    obtain ⟨k0, v0⟩ := p
    simp only [lookupKV] at h
    by_cases hk : k0 = k
    · rw [if_pos hk] at h
      exact absurd h (by simp)
    · rw [if_neg hk] at h
      simp only [List.map_cons, List.mem_cons]
      rintro (hh | hh)
      · exact hk hh.symm
      · exact ih h hh

/-! ### Lemmas on the `ParseFile` loop -/

theorem processLine_lookup_some {st : ParseState} {k v : Str}
    (file : Str) (n : Nat) (raw : Str)
    (h : lookupKV st.fileConfigs k = some v) :
    lookupKV (processLine file n raw st).fileConfigs k = some v := by
  cases hsp : splitLine raw with
  | skip => simp only [processLine, hsp]; exact h
  | malformed => simp only [processLine, hsp]; exact h
  | entry k0 v0 =>
    cases hl : lookupKV st.fileConfigs k0 with
    | some w => simp only [processLine, hsp, hl]; exact h
    | none =>
      simp only [processLine, hsp, hl]
      exact lookupKV_append_of_some [(k0, v0)] h

theorem processLine_logs_mem {st : ParseState} {m : LogMsg}
    (file : Str) (n : Nat) (raw : Str) (h : m ∈ st.logs) :
    m ∈ (processLine file n raw st).logs := by
  cases hsp : splitLine raw with
  | skip => simp only [processLine, hsp]; exact h
  | malformed =>
    simp only [processLine, hsp]
    exact List.mem_append_left _ h
  | entry k0 v0 =>
    cases hl : lookupKV st.fileConfigs k0 with
    | some w =>
      simp only [processLine, hsp, hl]
      exact List.mem_append_left _ h
    | none => simp only [processLine, hsp, hl]; exact h

theorem processLine_count_le (file : Str) (n : Nat) (raw : Str) (st : ParseState) :
    st.count ≤ (processLine file n raw st).count := by
  cases hsp : splitLine raw with
  | skip => simp only [processLine, hsp]; exact Nat.le_refl _
  | malformed => simp only [processLine, hsp]; exact Nat.le_refl _
  | entry k0 v0 =>
    cases hl : lookupKV st.fileConfigs k0 with
    | some w => simp only [processLine, hsp, hl]; exact Nat.le_refl _
    | none => simp only [processLine, hsp, hl]; exact Nat.le_succ _

theorem processLine_inv {st : ParseState} (file : Str) (n : Nat) (raw : Str)
    (h : StInv st) : StInv (processLine file n raw st) := by
  cases hsp : splitLine raw with
  | skip => simp only [processLine, hsp]; exact h
  | malformed => simp only [processLine, hsp]; exact h
  | entry k0 v0 =>
    cases hl : lookupKV st.fileConfigs k0 with
    | some w => simp only [processLine, hsp, hl]; exact h
    | none =>
      simp only [processLine, hsp, hl]
      refine ⟨?_, ?_⟩
      · simp [h.1]
      · simp only [List.map_append, List.map_cons, List.map_nil]
        rw [List.nodup_append]
        exact ⟨h.2, List.nodup_singleton _, by
          intro a ha hb
          simp only [List.mem_singleton] at hb
          subst hb
          exact not_mem_keys_of_lookupKV_none hl ha⟩

theorem runLines_ok_lookup {file : Str} {lines : List LineRead} {n : Nat}
    {st st' : ParseState} {k v : Str}
    (hr : runLines file lines n st = Except.ok st')
    (h : lookupKV st.fileConfigs k = some v) :
    lookupKV st'.fileConfigs k = some v := by
  induction lines generalizing n st with
  | nil =>
    simp only [runLines] at hr
    injection hr with hst
    subst hst
    exact h
  | cons r rest ih =>
    cases r with
    | readErr => simp [runLines] at hr
    | ok raw =>
      simp only [runLines] at hr
      exact ih hr (processLine_lookup_some file (n + 1) raw h)

theorem runLines_ok_logs_mem {file : Str} {lines : List LineRead} {n : Nat}
    {st st' : ParseState} {m : LogMsg}
    (hr : runLines file lines n st = Except.ok st')
    (h : m ∈ st.logs) : m ∈ st'.logs := by
  induction lines generalizing n st with
  | nil =>
    simp only [runLines] at hr
    injection hr with hst
    subst hst
    exact h
  | cons r rest ih =>
    cases r with
    | readErr => simp [runLines] at hr
    | ok raw =>
      simp only [runLines] at hr
      exact ih hr (processLine_logs_mem file (n + 1) raw h)

theorem runLines_ok_count_le {file : Str} {lines : List LineRead} {n : Nat}
    {st st' : ParseState}
    (hr : runLines file lines n st = Except.ok st') :
    st.count ≤ st'.count := by
  induction lines generalizing n st with
  | nil =>
    simp only [runLines] at hr
    injection hr with hst
    subst hst
    exact Nat.le_refl _
  | cons r rest ih =>
    cases r with
    | readErr => simp [runLines] at hr
    | ok raw =>
      simp only [runLines] at hr
      exact Nat.le_trans (processLine_count_le file (n + 1) raw st) (ih hr)

theorem runLines_ok_inv {file : Str} {lines : List LineRead} {n : Nat}
    {st st' : ParseState}
    (hr : runLines file lines n st = Except.ok st')
    (h : StInv st) : StInv st' := by
  induction lines generalizing n st with
  | nil =>
    simp only [runLines] at hr
    injection hr with hst
    subst hst
    exact h
  | cons r rest ih =>
    cases r with
    | readErr => simp [runLines] at hr
    | ok raw =>
      simp only [runLines] at hr
      exact ih hr (processLine_inv file (n + 1) raw h)

theorem initState_inv : StInv initState := ⟨rfl, List.nodup_nil⟩

theorem runLines_append (file : Str) (xs ys : List LineRead) (n : Nat)
    (st : ParseState) :
    runLines file (xs ++ ys) n st =
      (runLines file xs n st).bind fun st' =>
        runLines file ys (n + xs.length) st' := by
  induction xs generalizing n st with
  | nil => simp [runLines, Except.bind]
  | cons r rest ih =>
    cases r with
    | readErr => simp [runLines, Except.bind]
    | ok raw =>
      simp only [List.cons_append, runLines, List.length_cons, List.append_eq]
      rw [ih]
      have harith : n + 1 + rest.length = n + (rest.length + 1) := by omega
      rw [harith]

theorem runLines_ok_of_no_readErr {lines : List LineRead}
    (file : Str) (n : Nat) (st : ParseState)
    (h : ∀ r ∈ lines, r ≠ LineRead.readErr) :
    ∃ st', runLines file lines n st = Except.ok st' := by
  induction lines generalizing n st with
  | nil => exact ⟨st, rfl⟩
  | cons r rest ih =>
    cases r with
    | readErr => exact absurd rfl (h _ (List.mem_cons_self _ _))
    | ok raw =>
      exact ih (n + 1) (processLine file (n + 1) raw st)
        fun q hq => h q (List.mem_cons_of_mem _ hq)

theorem parseFile_content_ok {file : Str} {ls : List LineRead} {st : ParseState}
    (h : ParseFile file (FileInput.content ls) = Except.ok st) :
    runLines file ls 0 initState = Except.ok st ∧ st.count ≠ 0 := by
  simp only [ParseFile] at h
  cases hr : runLines file ls 0 initState with
  | error e =>
    rw [hr] at h
    exact Except.noConfusion h
  | ok st0 =>
    rw [hr] at h
    dsimp only at h
    by_cases hc : st0.count = 0
    · rw [if_pos hc] at h
      exact Except.noConfusion h
    · rw [if_neg hc] at h
      injection h with h'
      exact ⟨by rw [h'], h' ▸ hc⟩

theorem parseFile_content_ok_of_runLines {file : Str} {ls : List LineRead}
    {st : ParseState}
    (hr : runLines file ls 0 initState = Except.ok st) (hc : st.count ≠ 0) :
    ParseFile file (FileInput.content ls) = Except.ok st := by
  simp only [ParseFile, hr, if_neg hc]

theorem parseFile_ok_inv {file : Str} {input : FileInput} {st : ParseState}
    (h : ParseFile file input = Except.ok st) : StInv st := by
  cases input with
  | cantOpen => simp [ParseFile] at h
  | content ls =>
    exact runLines_ok_inv (parseFile_content_ok h).1 initState_inv

theorem loadFile_of_parse_error {file : Str} {input : FileInput} {e : ConfigError}
    (t : Table) (h : ParseFile file input = Except.error e) :
    LoadFile file input t = (false, t, [LogMsg.parseFail file e]) := by
  simp only [LoadFile, h]

theorem loadFile_true_elim {file : Str} {input : FileInput} {t t' : Table}
    {lg : List LogMsg}
    (h : LoadFile file input t = (true, t', lg)) :
    ∃ st, ParseFile file input = Except.ok st ∧
      t' = mergeAll t st.fileConfigs ∧ lg = st.logs := by
  cases hp : ParseFile file input with
  | error e =>
    rw [loadFile_of_parse_error t hp] at h
    injection h with h1 h2
    exact Bool.noConfusion h1
  | ok st =>
    simp only [LoadFile, hp] at h
    injection h with h1 h2
    injection h2 with h2 h3
    exact ⟨st, rfl, h2.symm, h3.symm⟩

/-! ### Claim theorems -/

/-- C1: the claim says a line whose `=` is its very last character is
logged as malformed and skipped.  The code compares the found index
against `line.length()`, which `find` can never return, so the guard is
dead: the line `Port =` (with `=` last) is split instead, producing an
entry with an empty value, and the file parses successfully with that
entry — no malformed-line diagnostic, no skip. -/
theorem c1_trailing_equal_line_is_not_skipped :
    splitLine (str "Port =") = LineResult.entry (str "Port") (str "") ∧
    ParseFile (str "f") (FileInput.content [LineRead.ok (str "Port =")]) =
      Except.ok ⟨1, [(str "Port", str "")], []⟩ :=
  ⟨rfl, rfl⟩

/-- C2: whenever the parse of a file fails — the file cannot be opened,
a non-EOF read error occurs on some line, or zero valid entries were
counted — `LoadFile` catches the error, returns `false`, and the table it
was given is returned exactly unchanged. -/
theorem c2_load_failure_leaves_table_unchanged :
    (∀ (file : Str) (input : FileInput) (t : Table) (e : ConfigError),
      ParseFile file input = Except.error e →
      LoadFile file input t = (false, t, [LogMsg.parseFail file e])) ∧
    (∀ file : Str,
      ParseFile file FileInput.cantOpen =
        Except.error (ConfigError.fileOpen file)) ∧
    (∀ (file : Str) (pre post : List LineRead),
      (∀ r ∈ pre, r ≠ LineRead.readErr) →
      ParseFile file (FileInput.content (pre ++ LineRead.readErr :: post)) =
        Except.error (ConfigError.lineRead file (pre.length + 1))) ∧
    (∀ (file : Str) (lines : List LineRead) (st : ParseState),
      runLines file lines 0 initState = Except.ok st → st.count = 0 →
      ParseFile file (FileInput.content lines) =
        Except.error (ConfigError.emptyFile file)) := by
  refine ⟨?_, ?_, ?_, ?_⟩
  · intro file input t e h
    exact loadFile_of_parse_error t h
  · intro file
    rfl
  · intro file pre post hpre
    obtain ⟨st0, hok⟩ := runLines_ok_of_no_readErr file 0 initState hpre
    simp only [ParseFile, runLines_append, hok, Except.bind, runLines, Nat.zero_add]
  · intro file lines st h hc
    simp only [ParseFile, h, if_pos hc]

/-- Witness for C2: an unopenable file makes `LoadFile` report failure
and hand back the table it was given. -/
theorem c2_witness :
    LoadFile (str "f") FileInput.cantOpen [] =
      (false, [], [LogMsg.parseFail (str "f") (ConfigError.fileOpen (str "f"))]) :=
  c2_load_failure_leaves_table_unchanged.1 (str "f") FileInput.cantOpen []
    (ConfigError.fileOpen (str "f"))
    (c2_load_failure_leaves_table_unchanged.2.1 (str "f"))

/-- C3: a well-formed `key = value` line whose trimmed key has not been
produced by any earlier line of the file ends up, after a successful
`LoadFile`, mapped in the live table to the trimmed, quote-stripped
value (`splitLine` performs exactly that trimming and `"`-removal). -/
theorem c3_wellformed_line_in_table (file : Str) (pre post : List LineRead)
    (l : Str) (st0 : ParseState) (t t' : Table) (lg : List LogMsg) (k v : Str)
    (h1 : runLines file pre 0 initState = Except.ok st0)
    (h2 : lookupKV st0.fileConfigs k = none)
    (h3 : splitLine l = LineResult.entry k v)
    (h4 : LoadFile file (FileInput.content (pre ++ LineRead.ok l :: post)) t =
      (true, t', lg)) :
    lookupKV t' k = some v := by
  obtain ⟨st, hp, ht', hlg⟩ := loadFile_true_elim h4
  obtain ⟨hrun, hcount⟩ := parseFile_content_ok hp
  rw [runLines_append, h1] at hrun
  have hstep : runLines file post (0 + pre.length + 1)
      (processLine file (0 + pre.length + 1) l st0) = Except.ok st := hrun
  have hins : lookupKV
      (processLine file (0 + pre.length + 1) l st0).fileConfigs k = some v := by
    simp only [processLine, h3, h2]
    rw [lookupKV_append_of_none [(k, v)] h2]
    simp [lookupKV]
  have hfin := runLines_ok_lookup hstep hins
  rw [ht']
  exact mergeAll_lookup_of_some t (parseFile_ok_inv hp).2 hfin

/-- Witness for C3: loading a file containing `Port = 8085` puts
`Port ↦ 8085` in the table. -/
theorem c3_witness :
    lookupKV [(str "Port", str "8085")] (str "Port") = some (str "8085") :=
  c3_wellformed_line_in_table (str "f") [] [] (str "Port = 8085") initState []
    [(str "Port", str "8085")] [] (str "Port") (str "8085") rfl rfl rfl rfl

/-- C4: a line repeating a key already accumulated from earlier lines of
the same file only appends a duplicate-key diagnostic — the map, the
counter and hence the rest of the parse are untouched; the whole file
still parses successfully (given readable remaining lines), and the
final map retains the first occurrence's value. -/
theorem c4_duplicate_key_first_wins (file : Str) (pre post : List LineRead)
    (l : Str) (st0 : ParseState) (k v1 v2 : Str)
    (h1 : runLines file pre 0 initState = Except.ok st0)
    (h2 : lookupKV st0.fileConfigs k = some v1)
    (h3 : splitLine l = LineResult.entry k v2)
    (h4 : ∀ r ∈ post, r ≠ LineRead.readErr) :
    processLine file (0 + pre.length + 1) l st0 =
      { st0 with logs := st0.logs ++ [LogMsg.duplicateKey file k] } ∧
    ∃ st2, ParseFile file (FileInput.content (pre ++ LineRead.ok l :: post)) =
        Except.ok st2 ∧
      lookupKV st2.fileConfigs k = some v1 ∧
      LogMsg.duplicateKey file k ∈ st2.logs := by
  have hdup : processLine file (0 + pre.length + 1) l st0 =
      { st0 with logs := st0.logs ++ [LogMsg.duplicateKey file k] } := by
    simp only [processLine, h3, h2]
  refine ⟨hdup, ?_⟩
  obtain ⟨st2, hok2⟩ := runLines_ok_of_no_readErr file (0 + pre.length + 1)
    (processLine file (0 + pre.length + 1) l st0) h4
  have hrun : runLines file (pre ++ LineRead.ok l :: post) 0 initState =
      Except.ok st2 := by
    rw [runLines_append, h1]
    exact hok2
  have hinv0 : StInv st0 := runLines_ok_inv h1 initState_inv
  have hcount0 : 1 ≤ st0.count := by
    rcases hst0 : st0.fileConfigs with _ | ⟨p, rest⟩
    · rw [hst0] at h2
      simp [lookupKV] at h2
    · have hlen := hinv0.1
      rw [hst0] at hlen
      simp only [List.length_cons] at hlen
      omega
  have hcount2 : st2.count ≠ 0 := by
    have hle := runLines_ok_count_le hok2
    rw [hdup] at hle
    have hle' : st0.count ≤ st2.count := hle
    omega
  refine ⟨st2, parseFile_content_ok_of_runLines hrun hcount2, ?_, ?_⟩
  · refine runLines_ok_lookup hok2 ?_
    rw [hdup]
    exact h2
  · refine runLines_ok_logs_mem hok2 ?_
    rw [hdup]
    exact List.mem_append_right _ (List.mem_cons_self _ _)

/-- Witness for C4: the file `a = 1`, `a = 2` parses, keeps `a ↦ 1`, and
logs the duplicate-key diagnostic. -/
theorem c4_witness :
    ∃ st2, ParseFile (str "f")
        (FileInput.content [LineRead.ok (str "a = 1"), LineRead.ok (str "a = 2")]) =
        Except.ok st2 ∧
      lookupKV st2.fileConfigs (str "a") = some (str "1") ∧
      LogMsg.duplicateKey (str "f") (str "a") ∈ st2.logs :=
  (c4_duplicate_key_first_wins (str "f") [LineRead.ok (str "a = 1")] []
    (str "a = 2") ⟨1, [(str "a", str "1")], []⟩ (str "a") (str "1") (str "2")
    rfl rfl rfl (by simp)).2

/-- C5: `AddKey` with `replace = true` leaves the table mapping the key
to the new value; with `replace = false` on an existing key it logs the
already-exists diagnostic and returns the table unchanged; and after
successfully loading file A then file B, a key parsed from B maps to B's
value in the final table. -/
theorem c5_addkey_replace_semantics :
    (∀ (t : Table) (k v : Str), lookupKV (AddKey t k v true).1 k = some v) ∧
    (∀ (t : Table) (k v v0 : Str), lookupKV t k = some v0 →
      AddKey t k v false = (t, [LogMsg.keyExists k v0])) ∧
    (∀ (fileA fileB : Str) (inA inB : FileInput) (t0 tA tB : Table)
      (lgA lgB : List LogMsg) (stB : ParseState) (k vB : Str),
      LoadInitial fileA inA t0 = (true, tA, lgA) →
      ParseFile fileB inB = Except.ok stB →
      lookupKV stB.fileConfigs k = some vB →
      LoadAdditionalFile fileB inB tA = (true, tB, lgB) →
      lookupKV tB k = some vB) := by
  refine ⟨addKey_lookup_self, ?_, ?_⟩
  · intro t k v v0 h
    simp [AddKey, h]
  · intro fileA fileB inA inB t0 tA tB lgA lgB stB k vB hA hPB hlk hB
    obtain ⟨st, hp, ht', hlg⟩ := loadFile_true_elim hB
    have hst : st = stB := by
      rw [hp] at hPB
      injection hPB
    rw [ht']
    refine mergeAll_lookup_of_some tA (parseFile_ok_inv hp).2 ?_
    rw [hst]
    exact hlk

/-- Witness for C5: loading `k = a` (file A) then `k = b` (file B) leaves
the table mapping `k` to `b`. -/
theorem c5_witness :
    lookupKV [(str "k", str "b")] (str "k") = some (str "b") :=
  c5_addkey_replace_semantics.2.2 (str "A") (str "B")
    (FileInput.content [LineRead.ok (str "k = a")])
    (FileInput.content [LineRead.ok (str "k = b")])
    [] [(str "k", str "a")] [(str "k", str "b")] [] []
    ⟨1, [(str "k", str "b")], []⟩ (str "k") (str "b") rfl rfl rfl rfl

/-- C6: `GetOption` always produces a value of the requested type: the
default when the name is absent, the default when the stored string does
not convert (in particular `GetOption<bool>` on a non-boolean string),
and the converted value exactly when conversion succeeds. -/
theorem c6_getoption_total (α : Type) (conv : Str → Option α) (t : Table)
    (name : Str) (d : α) (sl : Bool) :
    (lookupKV t name = none → (GetOption conv t name d sl).1 = d) ∧
    (∀ s, lookupKV t name = some s → conv s = none →
      (GetOption conv t name d sl).1 = d) ∧
    (∀ s v, lookupKV t name = some s → conv s = some v →
      (GetOption conv t name d sl).1 = v) ∧
    (∀ db : Bool, lookupKV t name = none → (GetOptionBool t name db sl).1 = db) ∧
    (∀ (s : Str) (db : Bool), lookupKV t name = some s → stringToBool s = none →
      (GetOptionBool t name db sl).1 = db) ∧
    (∀ (s : Str) (b db : Bool), lookupKV t name = some s →
      stringToBool s = some b → (GetOptionBool t name db sl).1 = b) := by
  refine ⟨?_, ?_, ?_, ?_, ?_, ?_⟩
  · intro h
    simp [GetOption, GetValueDefault, h]
  · intro s h hc
    simp [GetOption, GetValueDefault, h, hc]
  · intro s v h hc
    simp [GetOption, GetValueDefault, h, hc]
  · intro db h
    cases db <;> simp [GetOptionBool, GetValueDefaultString, h, stringToBool, str]
  · intro s db h hc
    simp [GetOptionBool, GetValueDefaultString, h, hc]
  · intro s b db h hc
    simp [GetOptionBool, GetValueDefaultString, h, hc]

/-- Witness for C6: `GetOption<bool>("flag", false)` is `false` when the
stored string is `notabool`, and `true` when it is `1`. -/
theorem c6_witness :
    (GetOptionBool [(str "flag", str "notabool")] (str "flag") false true).1 =
        false ∧
    (GetOptionBool [(str "flag", str "1")] (str "flag") false true).1 = true :=
  ⟨(c6_getoption_total Bool stringToBool [(str "flag", str "notabool")]
      (str "flag") false true).2.2.2.2.1 (str "notabool") false rfl rfl,
   (c6_getoption_total Bool stringToBool [(str "flag", str "1")]
      (str "flag") false true).2.2.2.2.2 (str "1") true false rfl rfl⟩

/-- C7: a file whose line loop yields zero valid entries makes
`ParseFile` raise the empty-file error and the load report failure; a
failed additional load hands the pre-existing table back unchanged while
a failed initial load leaves the table empty (cleared before loading). -/
theorem c7_empty_file_fails_load (file : Str) (lines : List LineRead)
    (st : ParseState) (t : Table)
    (h1 : runLines file lines 0 initState = Except.ok st)
    (h2 : st.count = 0) :
    ParseFile file (FileInput.content lines) =
      Except.error (ConfigError.emptyFile file) ∧
    LoadAdditionalFile file (FileInput.content lines) t =
      (false, t, [LogMsg.parseFail file (ConfigError.emptyFile file)]) ∧
    LoadInitial file (FileInput.content lines) t =
      (false, [], [LogMsg.parseFail file (ConfigError.emptyFile file)]) := by
  have hp : ParseFile file (FileInput.content lines) =
      Except.error (ConfigError.emptyFile file) := by
    simp only [ParseFile, h1, if_pos h2]
  exact ⟨hp, loadFile_of_parse_error t hp, loadFile_of_parse_error [] hp⟩

/-- Witness for C7: a file with no lines fails as empty; the additional
load keeps the old table, the initial load leaves it empty. -/
theorem c7_witness :
    ParseFile (str "f") (FileInput.content []) =
      Except.error (ConfigError.emptyFile (str "f")) ∧
    LoadAdditionalFile (str "f") (FileInput.content []) [(str "a", str "b")] =
      (false, [(str "a", str "b")],
        [LogMsg.parseFail (str "f") (ConfigError.emptyFile (str "f"))]) ∧
    LoadInitial (str "f") (FileInput.content []) [(str "a", str "b")] =
      (false, [], [LogMsg.parseFail (str "f") (ConfigError.emptyFile (str "f"))]) :=
  c7_empty_file_fails_load (str "f") [] initState [(str "a", str "b")] rfl rfl

/-- C8: `GetKeysByString` returns exactly the table's option names whose
first characters equal the given string (so a strictly shorter key is
never returned), and the empty sequence when nothing matches. -/
theorem c8_keys_by_string (t : Table) (name : Str) :
    (∀ k : Str, k ∈ GetKeysByString t name ↔
      ((∃ v, (k, v) ∈ t) ∧ name <+: k)) ∧
    (∀ k ∈ GetKeysByString t name, name.length ≤ k.length) ∧
    ((∀ p ∈ t, ¬ name <+: p.1) → GetKeysByString t name = []) := by
  refine ⟨?_, ?_, ?_⟩
  · intro k
    constructor
    · intro hk
      obtain ⟨p, hpf, hpk⟩ := List.mem_map.1 hk
      obtain ⟨hpt, hpred⟩ := List.mem_filter.1 hpf
      rw [decide_eq_true_eq] at hpred
      subst hpk
      exact ⟨⟨p.2, hpt⟩, take_length_eq_iff.1 hpred⟩
    · rintro ⟨⟨v, hv⟩, hpr⟩
      refine List.mem_map.2 ⟨(k, v), List.mem_filter.2 ⟨hv, ?_⟩, rfl⟩
      rw [decide_eq_true_eq]
      exact take_length_eq_iff.2 hpr
  · intro k hk
    obtain ⟨p, hpf, hpk⟩ := List.mem_map.1 hk
    obtain ⟨hpt, hpred⟩ := List.mem_filter.1 hpf
    rw [decide_eq_true_eq] at hpred
    subst hpk
    exact (take_length_eq_iff.1 hpred).length_le
  · intro hnone
    have hfe : t.filter (fun p => p.1.take name.length = name) = [] := by
      rw [List.filter_eq_nil_iff]
      intro p hp
      simp only [decide_eq_true_eq]
      intro hTake
      exact hnone p hp (take_length_eq_iff.1 hTake)
    simp [GetKeysByString, hfe]

/-- Witness for C8: with keys `Log.Level` and `Port`, the scan for
`Log.` returns exactly `Log.Level`. -/
theorem c8_witness :
    str "Log.Level" ∈
      GetKeysByString [(str "Log.Level", str "3"), (str "Port", str "1")]
        (str "Log.") ∧
    GetKeysByString [(str "Log.Level", str "3"), (str "Port", str "1")]
        (str "Log.") = [str "Log.Level"] :=
  ⟨((c8_keys_by_string [(str "Log.Level", str "3"), (str "Port", str "1")]
      (str "Log.")).1 (str "Log.Level")).2
    ⟨⟨str "3", List.mem_cons_self _ _⟩, take_length_eq_iff.1 rfl⟩,
   rfl⟩

/-- C9: `LoadAppConfigs` performs exactly the initial load of the
configured filename with `.dist` appended and returns that load's
result; its outcome depends only on that `.dist` file — the un-suffixed
filename (or any other file) is never read. -/
theorem c9_appconfigs_loads_only_dist (filename : Str)
    (env env2 : Str → FileInput) (t : Table)
    (h : env (filename ++ str ".dist") = env2 (filename ++ str ".dist")) :
    LoadAppConfigs filename env t =
      LoadInitial (filename ++ str ".dist") (env (filename ++ str ".dist")) t ∧
    LoadAppConfigs filename env t = LoadAppConfigs filename env2 t := by
  have heq : ∀ e : Str → FileInput, LoadAppConfigs filename e t =
      LoadInitial (filename ++ str ".dist") (e (filename ++ str ".dist")) t := by
    intro e
    unfold LoadAppConfigs
    rcases hL : LoadInitial (filename ++ str ".dist")
      (e (filename ++ str ".dist")) t with ⟨b, t', lg⟩
    cases b <;> simp
  refine ⟨heq env, ?_⟩
  rw [heq env, heq env2, h]

/-- Witness for C9: with every file unopenable, `LoadAppConfigs` is the
initial load of the `.dist` file. -/
theorem c9_witness :
    LoadAppConfigs (str "a.conf") (fun _ => FileInput.cantOpen) [] =
      LoadInitial (str "a.conf" ++ str ".dist") FileInput.cantOpen [] :=
  (c9_appconfigs_loads_only_dist (str "a.conf") (fun _ => FileInput.cantOpen)
    (fun _ => FileInput.cantOpen) [] rfl).1

/-- C10: the `showLogs` flag changes none of the accessors' returned
values — the first component of every accessor is identical for
`showLogs = true` and `showLogs = false`. -/
theorem c10_showlogs_never_changes_result (α : Type) (conv : Str → Option α)
    (t : Table) (name : Str) (d : α) (ds : Str) (db : Bool) :
    (GetOption conv t name d true).1 = (GetOption conv t name d false).1 ∧
    (GetValueDefault conv t name d true).1 =
      (GetValueDefault conv t name d false).1 ∧
    (GetValueDefaultString t name ds true).1 =
      (GetValueDefaultString t name ds false).1 ∧
    (GetOptionBool t name db true).1 = (GetOptionBool t name db false).1 := by
  have hgv : ∀ (dv : α), (GetValueDefault conv t name dv true).1 =
      (GetValueDefault conv t name dv false).1 := by
    intro dv
    cases hl : lookupKV t name with
    | none => simp [GetValueDefault, hl]
    | some s =>
      cases hc : conv s with
      | none => simp [GetValueDefault, hl, hc]
      | some v => simp [GetValueDefault, hl, hc]
  have hgs : ∀ dv : Str, (GetValueDefaultString t name dv true).1 =
      (GetValueDefaultString t name dv false).1 := by
    intro dv
    cases hl : lookupKV t name with
    | none => simp [GetValueDefaultString, hl]
    | some s => simp [GetValueDefaultString, hl]
  have hgb : (GetOptionBool t name db true).1 =
      (GetOptionBool t name db false).1 := by
    simp only [GetOptionBool]
    rw [hgs (if db then str "1" else str "0")]
    cases hx : stringToBool
      (GetValueDefaultString t name (if db then str "1" else str "0") false).1 with
    | none => simp
    | some b => simp
  exact ⟨hgv d, hgv d, hgs ds, hgb⟩

/-- Evaluation checks of the embedded parser against the spec's worked
example lines. -/
theorem splitLine_examples :
    splitLine (str "Port = 8085") = LineResult.entry (str "Port") (str "8085") ∧
    splitLine (str "# comment") = LineResult.skip ∧
    splitLine (str "[Section]") = LineResult.skip ∧
    splitLine (str "Name = \"MyServer\"   # trailing comment") =
      LineResult.entry (str "Name") (str "MyServer") ∧
    splitLine (str "no equals here") = LineResult.malformed :=
  ⟨rfl, rfl, rfl, rfl, rfl⟩
